import Mathlib

/-!
Verification of the medkit query-orchestration core: a shallow embedding of
the rate limiter (`utils.py`), the client fan-out (`client.py`), the intent
router and query cleaner (`ask_engine.py` and the routing entry points), and
the evidence-synthesis engine (`intelligence.py`), together with theorems
settling the frozen claims about them.

Modelling conventions:
* Python strings are embedded as `List Char` (lower-casing is ASCII, as in
  CPython for the inputs at hand); helper functions mirror `str.replace`,
  `re.sub` with literal alternations, `str.split`, and `str.strip`.
* Python floats in the evidence score are embedded as exact rationals; all
  score constants are decimal literals that are exact in `ℚ`.
* Wall-clock time is an explicit parameter (`currentYear` for the synthesis
  engine, an explicit rational clock for the rate limiter); sleeping advances
  the clock exactly and each step is instantaneous.
* Fallible Python code is embedded with `Except`/`Option`; the pydantic
  validation of `SearchResults.drugs` is embedded by a membrane type
  (`DrugsItem`) separating genuine `DrugInfo` objects from Python lists.
* Bounded recursion over shrinking character lists uses an explicit fuel
  argument always instantiated with a sufficient bound (`length + 1`).
-/

namespace Medkit

/-! ## Character and list helpers (embedding of the Python string operations) -/

def isSpaceChar (c : Char) : Bool :=
  c == ' ' || c == '\t' || c == '\n' || c == '\r' || c == '\x0b' || c == '\x0c'

/-- Word characters in the sense of the regex escape for word boundaries. -/
def isWordCh (c : Char) : Bool := c.isAlphanum || c == '_'

/-- Lower-cased character data of a Python string (`str.lower`, ASCII range). -/
def lowerData (s : String) : List Char := s.data.map Char.toLower

def lowerStr (s : String) : String := String.mk (lowerData s)

/-- Whether `needle` occurs as a contiguous substring of `hay` (`in` on `str`). -/
def occursSub (needle : List Char) : List Char → Bool
  | [] => needle.isPrefixOf []
  | c :: rest => needle.isPrefixOf (c :: rest) || occursSub needle rest

/-- Strip leading and trailing whitespace (`str.strip()`). -/
def stripWs (cs : List Char) : List Char :=
  ((cs.dropWhile isSpaceChar).reverse.dropWhile isSpaceChar).reverse

/-- Strip leading and trailing characters from the given set (`str.strip(chars)`). -/
def stripSet (set : List Char) (cs : List Char) : List Char :=
  ((cs.dropWhile (fun c => set.contains c)).reverse.dropWhile
    (fun c => set.contains c)).reverse

/-- Fuel-driven worker for `subAll` (`str.replace`, left-to-right,
non-overlapping). -/
def subAllAux (needle repl : List Char) : Nat → List Char → List Char
  | 0, hay => hay
  | f + 1, hay =>
    if !needle.isEmpty && needle.isPrefixOf hay then
      repl ++ subAllAux needle repl f (hay.drop needle.length)
    else
      match hay with
      | [] => []
      | c :: rest => c :: subAllAux needle repl f rest

/-- Replace every non-overlapping occurrence of `needle` by `repl`. -/
def subAll (needle repl hay : List Char) : List Char :=
  subAllAux needle repl (hay.length + 1) hay

/-- First alternative of an ordered literal alternation matching at the head
position, as a regex alternation of literals does. -/
def findAlt (alts : List (List Char)) (hay : List Char) : Option (List Char) :=
  alts.find? (fun a => !a.isEmpty && a.isPrefixOf hay)

/-- Fuel-driven worker for `removeAlts` (`re.sub(pattern, "", q)` for a
pattern that is an ordered alternation of literals). -/
def removeAltsAux (alts : List (List Char)) : Nat → List Char → List Char
  | 0, hay => hay
  | f + 1, hay =>
    match findAlt alts hay with
    | some a => removeAltsAux alts f (hay.drop a.length)
    | none =>
      match hay with
      | [] => []
      | c :: rest => c :: removeAltsAux alts f rest

/-- Delete every non-overlapping, leftmost-first occurrence of any of the
alternative literals. -/
def removeAlts (alts : List (List Char)) (hay : List Char) : List Char :=
  removeAltsAux alts (hay.length + 1) hay

/-- Fuel-driven worker for `splitOnSub` (`str.split(sep)`). -/
def splitOnAux (sep : List Char) : Nat → List Char → List Char → List (List Char)
  | 0, hay, cur => [cur.reverse ++ hay]
  | f + 1, hay, cur =>
    if !sep.isEmpty && sep.isPrefixOf hay then
      cur.reverse :: splitOnAux sep f (hay.drop sep.length) []
    else
      match hay with
      | [] => [cur.reverse]
      | c :: rest => splitOnAux sep f rest (c :: cur)

/-- Split on every occurrence of a non-empty separator (`str.split(sep)`). -/
def splitOnSub (sep hay : List Char) : List (List Char) :=
  splitOnAux sep (hay.length + 1) hay []

/-- Worker for `words`: split into maximal runs of word characters. -/
def wordsAux : List Char → List Char → List (List Char)
  | [], cur => if cur.isEmpty then [] else [cur.reverse]
  | c :: rest, cur =>
    if isWordCh c then wordsAux rest (c :: cur)
    else if cur.isEmpty then wordsAux rest cur
    else cur.reverse :: wordsAux rest []

/-- The word-boundary tokens of a character list: maximal runs of word
characters, in order. -/
def words (cs : List Char) : List (List Char) := wordsAux cs []

def optWordCh : Option Char → Bool
  | none => false
  | some c => isWordCh c

/-- A regex word boundary sits between two characters (or a text edge) when
exactly one side is a word character. -/
def bndBoundary (l r : Option Char) : Bool := optWordCh l != optWordCh r

def firstOr (o : Option Char) (fallback : Option Char) : Option Char :=
  match o with
  | some c => some c
  | none => fallback

/-- Whether the literal `needle`, wrapped in word boundaries, matches at the
current position of `hay`, with `prevC` the character just before it. -/
def matchWordAt (prevC : Option Char) (needle hay : List Char) : Bool :=
  needle.isPrefixOf hay &&
    bndBoundary prevC (firstOr needle.head? hay.head?) &&
    bndBoundary (firstOr needle.getLast? prevC) ((hay.drop needle.length).head?)

def bndOccursAux (needle : List Char) : Option Char → List Char → Bool
  | prevC, [] => matchWordAt prevC needle []
  | prevC, c :: rest =>
    matchWordAt prevC needle (c :: rest) || bndOccursAux needle (some c) rest

/-- `re.search` of a word-boundary-wrapped literal anywhere in the text. -/
def bndOccurs (needle hay : List Char) : Bool := bndOccursAux needle none hay

/-- Strict-precedence test derived from an integer key, descending:
`a` must come strictly before `b` exactly when its key is larger. -/
def ltByKey {α : Type} (key : α → Int) (a b : α) : Bool :=
  decide (key b < key a)

/-- Insert `x` into an already sorted list, after every element that strictly
precedes it — the insertion step of a stable sort. -/
def stableInsert {α : Type} (lt : α → α → Bool) (x : α) : List α → List α
  | [] => [x]
  | y :: ys => if lt y x then y :: stableInsert lt x ys else x :: y :: ys

/-- Stable insertion sort.  Python's `sorted` is stable, and a stable sort is
extensionally determined by its total preorder, so this embeds
`sorted(..., key=..., reverse=True)` when used with `ltByKey`. -/
def stableSort {α : Type} (lt : α → α → Bool) : List α → List α
  | [] => []
  | x :: xs => stableInsert lt x (stableSort lt xs)

/-! ## Data model (`models.py`) -/

structure DrugInfo where
  brand_name : String
  generic_name : String
  manufacturer : Option String := none
  indications : List String := []
  interactions : List String := []
  dosage_form : Option String := none
  route : List String := []
deriving DecidableEq

structure ResearchPaper where
  pmid : String
  title : String
  authors : List String := []
  journal : Option String := none
  year : Option Int := none
  abstract : Option String := none
  url : Option String := none
deriving DecidableEq

structure ClinicalTrial where
  nct_id : String
  title : Option String := none
  status : Option String := none
  conditions : List String := []
  description : Option String := none
  recruiting : Bool := false
  url : Option String := none
  phase : List String := []
  location : List String := []
  eligibility : Option String := none
  interventions : List String := []
deriving DecidableEq

structure SearchMetadata where
  query_time : ℚ
  sources : List String := []
  cached : Bool := false
  offline_providers : List String := []
deriving DecidableEq

structure SearchResults where
  drugs : List DrugInfo
  papers : List ResearchPaper
  trials : List ClinicalTrial
  metadata : SearchMetadata
deriving DecidableEq

/-! ## Evidence synthesis engine (`intelligence.py`) -/

/-- The conclusion object built by `IntelligenceEngine.synthesize` (the
`ClinicalConclusion` model defined in `intelligence.py`; it has no
timestamp field). -/
structure ClinicalConclusion where
  summary : String
  evidence_score : ℚ
  key_findings : List String
  recommendation : String
deriving DecidableEq

/-- Literal alternatives equivalent to the case-insensitive search for
`PHASE[ \-]?(3|III)` over the lower-cased text. -/
def phase3Alts : List (List Char) :=
  ["phase3", "phase 3", "phase-3", "phaseiii", "phase iii", "phase-iii"].map String.data

/-- Literal alternatives equivalent to the case-insensitive search for
`PHASE[ \-]?(2|II)` over the lower-cased text. -/
def phase2Alts : List (List Char) :=
  ["phase2", "phase 2", "phase-2", "phaseii", "phase ii", "phase-ii"].map String.data

def phaseTextMatch (alts : List (List Char)) (s : String) : Bool :=
  alts.any (fun a => occursSub a (lowerData s))

def isPhase3 (t : ClinicalTrial) : Bool :=
  t.phase.any (fun p => phaseTextMatch phase3Alts p)

def isPhase2 (t : ClinicalTrial) : Bool :=
  t.phase.any (fun p => phaseTextMatch phase2Alts p)

/-- Trials classified into the phase-3 bucket (the `elif` gives phase 3
priority). -/
def phase3Trials (trials : List ClinicalTrial) : List ClinicalTrial :=
  trials.filter (fun t => isPhase3 t)

def phase2Trials (trials : List ClinicalTrial) : List ClinicalTrial :=
  trials.filter (fun t => !isPhase3 t && isPhase2 t)

/-- FDA authority contribution: a fixed bonus when any drug record is present. -/
def fdaBonus (drugs : List DrugInfo) : ℚ :=
  if drugs.isEmpty then 0 else 0.15

def p3Bonus (trials : List ClinicalTrial) : ℚ :=
  if (phase3Trials trials).isEmpty then 0
  else min (0.25 + ((phase3Trials trials).length : ℚ) * 0.05) 0.45

def p2Bonus (trials : List ClinicalTrial) : ℚ :=
  if (phase2Trials trials).isEmpty then 0
  else min (0.10 + ((phase2Trials trials).length : ℚ) * 0.02) 0.20

/-- Papers within the recency window: `p.year and (current_year - p.year <= 3)`;
a missing year, and year 0, are falsy in Python. -/
def recentPapers (currentYear : Int) (papers : List ResearchPaper) : List ResearchPaper :=
  papers.filter (fun p =>
    match p.year with
    | some y => decide (y ≠ 0 ∧ currentYear - y ≤ 3)
    | none => false)

def volumeBonus (papers : List ResearchPaper) (trials : List ClinicalTrial) : ℚ :=
  min (((trials.length + papers.length : ℕ) : ℚ) * 0.015) 0.25

def recencyBonus (currentYear : Int) (papers : List ResearchPaper) : ℚ :=
  min (((recentPapers currentYear papers).length : ℚ) * 0.03) 0.10

/-- The raw additive score accumulated by `synthesize` before clamping. -/
def rawScore (currentYear : Int) (drugs : List DrugInfo)
    (papers : List ResearchPaper) (trials : List ClinicalTrial) : ℚ :=
  fdaBonus drugs + p3Bonus trials + p2Bonus trials +
    volumeBonus papers trials + recencyBonus currentYear papers

/-- `round(x, 2)` on the exact rational value. -/
def round2 (x : ℚ) : ℚ := ((round (x * 100) : ℤ) : ℚ) / 100

/-- The findings list accumulated by `synthesize`, in program order. -/
def synthFindings (currentYear : Int) (drugs : List DrugInfo)
    (papers : List ResearchPaper) (trials : List ClinicalTrial) : List String :=
  (if drugs.isEmpty then [] else
    ["FDA data available for: " ++
      String.intercalate ", " ((drugs.take 2).map (fun d => d.brand_name)) ++ "."]) ++
  (if (phase3Trials trials).isEmpty then [] else
    ["Validated by " ++ toString (phase3Trials trials).length ++
      " Phase III clinical trials."]) ++
  (if (phase2Trials trials).isEmpty then [] else
    ["Includes " ++ toString (phase2Trials trials).length ++
      " mid-stage (Phase II) studies."]) ++
  (if (recentPapers currentYear papers).length = 0 then [] else
    ["High recent academic activity (" ++
      toString (recentPapers currentYear papers).length ++ " papers)."])

/-- The summary tail and recommendation picked from the fixed threshold
ladder over the raw score. -/
def synthTemplates (score : ℚ) : String × String :=
  if score ≥ 0.7 then
    ("Highly-validated therapeutic landscape with multi-modal evidence.",
     "Standard-of-care identified; focus on Phase III long-term outcomes.")
  else if score ≥ 0.5 then
    ("Strong clinical evidence base found across multiple regulated sources.",
     "Actionable; prioritize approved labels and late-stage trial cohorts.")
  else if score ≥ 0.3 then
    ("Emerging clinical consensus with moderate late-stage validation.",
     "Monitor Phase II/III pivot points for therapeutic changes.")
  else if score ≥ 0.15 then
    ("Preliminary evidence base characterized by early-phase research.",
     "Exploratory; focus on mechanistic studies and Phase I/II data.")
  else
    ("Sparse clinical evidence found in primary repositories.",
     "Broaden search parameters or investigate case-study literature.")

/-- `IntelligenceEngine.synthesize`, with the wall clock (only its year is
read, through `datetime.now().year`) passed explicitly. -/
def synthesize (currentYear : Int) (query : String) (drugs : List DrugInfo)
    (papers : List ResearchPaper) (trials : List ClinicalTrial) : ClinicalConclusion :=
  let score := rawScore currentYear drugs papers trials
  let tmpl := synthTemplates score
  { summary := "Clinical synthesis for \x27" ++ query ++ "\x27: " ++ tmpl.1
    evidence_score := round2 (min score 1)
    key_findings := (synthFindings currentYear drugs papers trials).take 4
    recommendation := tmpl.2 }

/-- Whether the single case-insensitive word-boundary regex alternating the
brand and the generic name of `d` matches the text. -/
def drugMatchesText (d : DrugInfo) (text : String) : Bool :=
  bndOccurs (lowerData d.brand_name) (lowerData text) ||
    bndOccurs (lowerData d.generic_name) (lowerData text)

/-- Whether a trial is related to a drug: only the intervention strings are
scanned. -/
def trialMatches (d : DrugInfo) (t : ClinicalTrial) : Bool :=
  t.interventions.any (fun inter => drugMatchesText d inter)

def relatedTrialIds (d : DrugInfo) (trials : List ClinicalTrial) : List String :=
  (trials.filter (fun t => trialMatches d t)).map (fun t => t.nct_id)

/-- Python dict assignment `m[k] = v`: replace in place if the key exists,
else append at the end (insertion order preserved). -/
def dictSet (m : List (String × List String)) (k : String) (v : List String) :
    List (String × List String) :=
  if m.any (fun kv => kv.1 == k) then
    m.map (fun kv => if kv.1 == k then (k, v) else kv)
  else m ++ [(k, v)]

/-- `IntelligenceEngine.correlate_entities`: the mapping, as an insertion-ordered
dictionary, from the lower-cased brand name of each drug to the identifiers of
its matching trials. -/
def correlate_entities (drugs : List DrugInfo) (trials : List ClinicalTrial) :
    List (String × List String) :=
  drugs.foldl (fun m d => dictSet m (lowerStr d.brand_name) (relatedTrialIds d trials)) []

/-! ## Query cleaning (`ask_engine.py`, `AskEngine._extract_search_terms`) -/

/-- The ordered stop patterns of `_extract_search_terms`, each expanded from
its regex into the ordered list of literal alternatives. -/
def stopPatterns : List (List (List Char)) :=
  [["what is the clinical status of", "what are the clinical status of"],
   ["what is the status of", "what are the status of"],
   ["what is clinical trials for", "what are clinical trials for"],
   ["what is", "what are", "what is are"],
   ["clinical status of"],
   ["clinical trials for"],
   ["overview of"],
   ["summary of"],
   ["information on"],
   ["tell me about"],
   ["research for"],
   ["papers on"],
   ["trials for"]].map (fun g => g.map String.data)

/-- One iteration of the preposition heuristic for a single separator. -/
def prepStep (q : List Char) (sep : List Char) : List Char :=
  if occursSub sep q then
    let parts := splitOnSub sep q
    let p0 := parts.getD 0 []
    let p1 := parts.getD 1 []
    if ["status", "overview", "summary"].any (fun w => occursSub w.data p0) then p1
    else if (stripWs p0).length < 3 then p1
    else p0 ++ [' '] ++ p1
  else q

def prepFold (q : List Char) : List Char :=
  [" for ", " in ", " with ", " as "].foldl (fun cur s => prepStep cur s.data) q

def headIsSpace (cs : List Char) : Bool :=
  match cs.head? with
  | some c => isSpaceChar c
  | none => false

/-- The final cleanup `re.sub(r"^(?:the|of|a|an)\s+", "", q)`: the ordered
alternation with backtracking into the mandatory whitespace. -/
def stripLeadingFiller (q : List Char) : List Char :=
  match ["the", "of", "a", "an"].find?
      (fun w => w.data.isPrefixOf q && headIsSpace (q.drop w.data.length)) with
  | some w => (q.drop w.data.length).dropWhile isSpaceChar
  | none => q

/-- `AskEngine._extract_search_terms`: lower-case, fix the `clinial` typo,
strip the stop patterns one after the other (stripping whitespace after each),
apply the preposition heuristic, drop a leading article, and strip question
marks and spaces. -/
def extract_search_terms (query : String) : List Char :=
  let q0 := lowerData query
  let q1 := subAll "clinial".data "clinical".data q0
  let q2 := stopPatterns.foldl (fun q alts => stripWs (removeAlts alts q)) q1
  let q3 := prepFold q2
  let q4 := stripLeadingFiller q3
  stripWs (stripSet ['?', ' '] q4)

/-! ## Intent router

`MedKit.ask` and `AsyncMedKit.ask` call `AskEngine.route` and
`AskEngine.clean_query`, but neither method is defined anywhere in the source
tree (only these call sites and `tests/test_routing.py` mention them).  The
router is therefore modelled from the spec. -/

inductive Intent where
  | explain
  | trials
  | papers
  | summary
  | search
deriving DecidableEq

/-- Modelled from the spec: `AskEngine.route` is missing from the source tree.
Keyword sets are word-boundary-anchored, intent-specific keywords; the trials
set is the one the spec names, the others follow the vocabulary of the spec
and of `tests/test_routing.py`. -/
def intentKeywords : Intent → List (List Char)
  | .explain => ["explain", "mechanism", "drug", "warning"].map String.data
  | .trials => ["trial", "trials", "study", "nct"].map String.data
  | .papers => ["paper", "papers", "research", "publication", "publications",
      "pubmed"].map String.data
  | .summary => ["summary", "summarize", "overview"].map String.data
  | .search => []

/-- Modelled from the spec: the score of one intent is the number of
word-boundary keyword matches in the lower-cased input. -/
def routeScore (i : Intent) (q : String) : Nat :=
  (words (lowerData q)).countP (fun w => (intentKeywords i).contains w)

/-- Modelled from the spec: `AskEngine.route` classifies by the strictly
highest keyword score, ties broken by the fixed priority
explain > trials > papers > summary, and falls back to `search` when every
score is zero. -/
def route (q : String) : Intent :=
  let se := routeScore .explain q
  let st := routeScore .trials q
  let sp := routeScore .papers q
  let ss := routeScore .summary q
  let m := max se (max st (max sp ss))
  if m = 0 then .search
  else if se = m then .explain
  else if st = m then .trials
  else if sp = m then .papers
  else .summary

/-! ## Rate limiter (`utils.py`)

Time is an explicit clock drawn from a linearly ordered additive group (float
seconds idealized to exact arithmetic; only `+`, `-` and comparisons are used
on times): a sleep advances the clock exactly to the wake-up instant and every
step is instantaneous, so the timestamp appended on admission is the admission
instant itself.  The synchronous and the asynchronous variant prune the same
set of stale timestamps (the list stays sorted, so the deque pruning loop and
the list comprehension agree) and share the accounting below. -/

structure RateLimiterState (α : Type) where
  calls : Int
  period : α
  timestamps : List α
deriving DecidableEq

/-- `RateLimiter.__init__` (and `AsyncRateLimiter.__init__`): the constructor
only stores its arguments; its body contains no validation and cannot raise. -/
def rateLimiterInit {α : Type} (calls : Int) (period : α) :
    Except Unit (RateLimiterState α) :=
  .ok { calls := calls, period := period, timestamps := [] }

/-- Remove timestamps older than the period, keeping those with
`now - t < period`. -/
def pruneTimestamps {α : Type} [LinearOrderedAddCommGroup α]
    (period now : α) (ts : List α) : List α :=
  ts.filter (fun t => decide (now - t < period))

inductive WaitOutcome (α : Type) where
  | admitted (at_ : α) (ts : List α)
  | indexError
  | fuelExhausted
deriving DecidableEq

/-- `RateLimiter.wait`: prune, and if the remaining count is at or above
`calls`, sleep until the oldest timestamp leaves the window and re-check;
otherwise record the current instant and return.  `timestamps[0]` on an empty
pruned list raises an IndexError.  The recursion is bounded by explicit fuel;
`waitFuel` below always suffices. -/
def rateLimiterWait {α : Type} [LinearOrderedAddCommGroup α] (calls : Int) (period : α) :
    Nat → List α → α → WaitOutcome α
  | 0, _, _ => .fuelExhausted
  | fuel + 1, ts, now =>
    let ts' := pruneTimestamps period now ts
    if calls ≤ (ts'.length : Int) then
      match ts' with
      | [] => .indexError
      | t0 :: _ =>
        let sleepTime := period - (now - t0)
        let wake := if 0 < sleepTime then now + sleepTime else now
        rateLimiterWait calls period fuel ts' wake
    else
      .admitted now (ts' ++ [now])

def waitFuel {α : Type} (ts : List α) : Nat := ts.length + 1

/-- A sequence of sequential `wait` calls from one caller: each request is
issued `d` seconds after the previous admission returned, and the produced
list collects the admission instants. -/
def runDelays {α : Type} [LinearOrderedAddCommGroup α] (calls : Int) (period : α) :
    List α → List α → α → Option (List α)
  | [], _, _ => some []
  | d :: ds, ts, tprev =>
    match rateLimiterWait calls period (waitFuel ts) ts (tprev + d) with
    | .admitted a ts2 => (runDelays calls period ds ts2 a).map (fun as => a :: as)
    | _ => none

/-- The admission-count invariant of a history of admission instants: when
each admission was granted, fewer than `calls` of the earlier admissions lay
inside the rolling window ending at it. -/
def WindowOk {α : Type} [LinearOrderedAddCommGroup α]
    (calls : Int) (period : α) (h : List α) : Prop :=
  ∀ (k : Nat) (hk : k < h.length),
    (((h.take k).filter (fun t => decide (h.get ⟨k, hk⟩ - t < period))).length : Int) < calls

/-! ## Providers and the client fan-out (`providers/*.py`, `client.py`)

The upstream HTTP exchanges are abstracted into an `AdapterResponses` record:
each field is the outcome the corresponding provider call would observe.  The
provider `search_sync` bodies are embedded faithfully on top of it:
`OpenFDAProvider.search_sync` swallows every exception and returns a list,
`PubMedProvider.search_sync` wraps any failure in an `APIError`, and
`ClinicalTrialsProvider.search_sync` falls back to curl and returns `[]` when
everything fails.  The async `search` bodies have the same error shape. -/

instance {ε α : Type} [DecidableEq ε] [DecidableEq α] : DecidableEq (Except ε α)
  | .ok a, .ok b =>
    if h : a = b then .isTrue (by rw [h]) else .isFalse (by intro hh; cases hh; exact h rfl)
  | .ok _, .error _ => .isFalse (by intro h; cases h)
  | .error _, .ok _ => .isFalse (by intro h; cases h)
  | .error e, .error f =>
    if h : e = f then .isTrue (by rw [h]) else .isFalse (by intro hh; cases hh; exact h rfl)

structure AdapterResponses where
  openfdaHttp : Except Unit (List DrugInfo)
  pubmedHttp : Except Unit (List ResearchPaper)
  ctgovHttp : Except Unit (List ClinicalTrial)
  ctgovCurl : Option (List ClinicalTrial)
deriving DecidableEq

inductive MedKitErr where
  | apiError
  | notRegistered
deriving DecidableEq

/-- `OpenFDAProvider.search_sync`: returns the parsed result list and turns
every exception into the empty list — it never raises. -/
def openfdaSearchSync (r : AdapterResponses) : List DrugInfo :=
  match r.openfdaHttp with
  | .ok ds => ds
  | .error _ => []

/-- `PubMedProvider.search_sync`: re-raises every failure as an `APIError`. -/
def pubmedSearchSync (r : AdapterResponses) : Except MedKitErr (List ResearchPaper) :=
  match r.pubmedHttp with
  | .ok ps => .ok ps
  | .error _ => .error .apiError

/-- `ClinicalTrialsProvider.search_sync`: tries HTTP, then the curl fallback,
and returns `[]` when both fail — it never raises. -/
def clinicaltrialsSearchSync (r : AdapterResponses) : List ClinicalTrial :=
  match r.ctgovHttp with
  | .ok ts => ts
  | .error _ =>
    match r.ctgovCurl with
    | some ts => ts
    | none => []

/-- `p.year or 0`, the sort key of `MedKit.papers`. -/
def yearOrZero (y : Option Int) : Int :=
  match y with
  | some v => v
  | none => 0

def paperYearKey (p : ResearchPaper) : Int := yearOrZero p.year

/-- The re-sort `sorted(results, key=lambda p: p.year or 0, reverse=True)`:
a stable sort into descending year order. -/
def sortPapersByYear (ps : List ResearchPaper) : List ResearchPaper :=
  stableSort (ltByKey paperYearKey) ps

/-- `MedKit.drug`: the openfda provider is registered by the constructor, so
the declared single `DrugInfo` is in fact the whole list the provider
returned (`AsyncMedKit.drug` evaluates to the same list). -/
def medkitDrug (r : AdapterResponses) : List DrugInfo :=
  openfdaSearchSync r

/-- `MedKit.papers`: provider search re-sorted by year, descending. -/
def medkitPapers (r : AdapterResponses) : Except MedKitErr (List ResearchPaper) :=
  match pubmedSearchSync r with
  | .ok ps => .ok (sortPapersByYear ps)
  | .error e => .error e

/-- `MedKit.trials`: the provider list, order untouched. -/
def medkitTrials (r : AdapterResponses) : List ClinicalTrial :=
  clinicaltrialsSearchSync r

/-- An element of the Python list bound to the `drugs` keyword of
`SearchResults(...)`: either a genuine `DrugInfo` instance (accepted by the
per-record validation) or a Python list (rejected by it). -/
inductive DrugsItem where
  | drugObj (d : DrugInfo)
  | pyList (ds : List DrugInfo)
deriving DecidableEq

/-- The field values `MedKit.search` accumulates just before constructing
`SearchResults`: each provider branch catches only `MedKitError`, `sources`
collects openfda unconditionally (its branch cannot raise) and the other two
names only on success with data, and nothing ever writes
`offline_providers`. -/
structure SearchPre where
  drugsField : List DrugsItem
  papersField : List ResearchPaper
  trialsField : List ClinicalTrial
  sources : List String
  offline_providers : List String
deriving DecidableEq

def medkitSearchPre (r : AdapterResponses) : SearchPre :=
  let drugRes := medkitDrug r
  let drugs : List DrugsItem := [DrugsItem.pyList drugRes]
  let sources1 := ["openfda"]
  let papersBranch :=
    match medkitPapers r with
    | .ok ps => (ps, if ps.isEmpty then sources1 else sources1 ++ ["pubmed"])
    | .error _ => ([], sources1)
  let trials := medkitTrials r
  let sources3 :=
    if trials.isEmpty then papersBranch.2 else papersBranch.2 ++ ["clinicaltrials"]
  { drugsField := drugs
    papersField := papersBranch.1
    trialsField := trials
    sources := sources3
    offline_providers := [] }

/-- Pydantic validation of one element of the `drugs` field: a `DrugInfo`
instance is accepted, a Python list is not a valid `DrugInfo`. -/
def validateDrugsItem : DrugsItem → Except Unit DrugInfo
  | .drugObj d => .ok d
  | .pyList _ => .error ()

def validateDrugsField : List DrugsItem → Except Unit (List DrugInfo)
  | [] => .ok []
  | x :: xs =>
    match validateDrugsItem x, validateDrugsField xs with
    | .ok d, .ok ds => .ok (d :: ds)
    | _, _ => .error ()

/-- `MedKit.search`: build the field values and construct `SearchResults`;
a pydantic `ValidationError` (not a `MedKitError`) escapes to the caller.
`query_time` is the elapsed wall clock, passed explicitly. -/
def medkitSearch (r : AdapterResponses) (queryTime : ℚ) : Except Unit SearchResults :=
  let pre := medkitSearchPre r
  match validateDrugsField pre.drugsField with
  | .error _ => .error ()
  | .ok ds =>
    .ok { drugs := ds
          papers := pre.papersField
          trials := pre.trialsField
          metadata := { query_time := queryTime, sources := pre.sources,
                        cached := false, offline_providers := pre.offline_providers } }

/-! ## Concrete records used by the counterexamples and witnesses -/

def aspirinDrug : DrugInfo :=
  { brand_name := "Aspirin", generic_name := "acetylsalicylic acid" }

def titleOnlyTrial : ClinicalTrial :=
  { nct_id := "NCT00000001", title := some "Aspirin in primary prevention",
    description := some "A study of aspirin.", interventions := [] }

def paperOf (pmid : String) (year : Option Int) : ResearchPaper :=
  { pmid := pmid, title := "T" ++ pmid, year := year }

/-- Adapter outcomes in which the pubmed and clinicaltrials calls fail while
openfda succeeds with one record. -/
def rPubmedDown : AdapterResponses :=
  { openfdaHttp := .ok [aspirinDrug], pubmedHttp := .error (),
    ctgovHttp := .error (), ctgovCurl := none }

/-- Adapter outcomes in which pubmed returns two papers in ascending year
order. -/
def rPapersAsc : AdapterResponses :=
  { openfdaHttp := .error (), pubmedHttp := .ok [paperOf "1" (some 2000), paperOf "2" (some 2020)],
    ctgovHttp := .error (), ctgovCurl := none }

/-! ## Theorems: stable sort -/

theorem stableInsert_perm {α : Type} (lt : α → α → Bool) (x : α) (l : List α) :
    (stableInsert lt x l).Perm (x :: l) := by
  induction l with
  | nil => simp [stableInsert]
  | cons y ys ih =>
    cases h : lt y x with
    | true =>
      simp only [stableInsert, h, if_true]
      exact (ih.cons y).trans (List.Perm.swap x y ys)
    | false => simp [stableInsert, h]

theorem stableSort_perm {α : Type} (lt : α → α → Bool) (l : List α) :
    (stableSort lt l).Perm l := by
  induction l with
  | nil => simp [stableSort]
  | cons x xs ih => exact (stableInsert_perm lt x _).trans (ih.cons x)

theorem stableInsert_sorted {α : Type} (key : α → Int) (x : α) {l : List α}
    (h : l.Pairwise (fun a b => key b ≤ key a)) :
    (stableInsert (ltByKey key) x l).Pairwise (fun a b => key b ≤ key a) := by
  induction l with
  | nil => simp [stableInsert]
  | cons y ys ih =>
    rcases List.pairwise_cons.mp h with ⟨hy, hys⟩
    cases hlt : ltByKey key y x with
    | true =>
      have hxy : key x < key y := by simpa [ltByKey] using hlt
      simp only [stableInsert, hlt, if_true]
      refine List.pairwise_cons.mpr ⟨?_, ih hys⟩
      intro z hz
      have hz2 : z = x ∨ z ∈ ys := by
        have := (stableInsert_perm (ltByKey key) x ys).mem_iff.mp hz
        simpa using this
      rcases hz2 with rfl | hz2
      · exact le_of_lt hxy
      · exact hy z hz2
    | false =>
      have hyx : key y ≤ key x := by simpa [ltByKey] using hlt
      simp only [stableInsert, hlt, if_false, Bool.false_eq_true]
      refine List.pairwise_cons.mpr ⟨?_, h⟩
      intro z hz
      rcases List.mem_cons.mp hz with rfl | hz2
      · exact hyx
      · exact le_trans (hy z hz2) hyx

theorem stableSort_sorted {α : Type} (key : α → Int) (l : List α) :
    (stableSort (ltByKey key) l).Pairwise (fun a b => key b ≤ key a) := by
  induction l with
  | nil => simp [stableSort]
  | cons x xs ih => exact stableInsert_sorted key x ih

theorem stableInsert_filter_key {α : Type} (key : α → Int) (x : α) (l : List α) (k : Int) :
    (stableInsert (ltByKey key) x l).filter (fun a => key a == k) =
      (if key x == k then
        x :: l.filter (fun a => key a == k)
      else l.filter (fun a => key a == k)) := by
  induction l with
  | nil => cases hk : key x == k <;> simp [stableInsert, List.filter, hk]
  | cons y ys ih =>
    cases hlt : ltByKey key y x with
    | true =>
      have hxy : key x < key y := by simpa [ltByKey] using hlt
      simp only [stableInsert, hlt, if_true]
      by_cases hk : key x = k
      · have hyk : (key y == k) = false := by
          simp only [beq_eq_false_iff_ne]
          omega
        simp [List.filter, hyk, ih, hk]
      · have hk2 : (key x == k) = false := by simpa using hk
        cases hyk : key y == k <;> simp [List.filter, ih, hk2, hyk]
    | false =>
      simp only [stableInsert, hlt, if_false, Bool.false_eq_true]
      cases hk : key x == k <;> simp [List.filter, hk]

theorem stableSort_filter_key {α : Type} (key : α → Int) (l : List α) (k : Int) :
    (stableSort (ltByKey key) l).filter (fun a => key a == k) =
      l.filter (fun a => key a == k) := by
  induction l with
  | nil => simp [stableSort]
  | cons x xs ih =>
    simp only [stableSort, stableInsert_filter_key, ih]
    cases hk : key x == k <;> simp [List.filter, hk]

theorem perm_isEmpty {α : Type} {l1 l2 : List α} (h : l1.Perm l2) :
    l1.isEmpty = l2.isEmpty := by
  cases l2 with
  | nil => simp [List.Perm.eq_nil h]
  | cons b bs =>
    have : l1 ≠ [] := by
      intro hnil
      have := h.length_eq
      simp [hnil] at this
    cases l1 with
    | nil => exact absurd rfl this
    | cons a as => simp

/-! ## Theorems: the client fan-out (claims C1, C2, C10) -/

theorem sortPapersByYear_isEmpty (ps : List ResearchPaper) :
    (sortPapersByYear ps).isEmpty = ps.isEmpty :=
  perm_isEmpty (stableSort_perm _ ps)

/-- Claim C2: `MedKit.drug` (and `AsyncMedKit.drug`) evaluates to the entire
record list returned by the openfda provider fetch, whose `search_sync` never
raises; `MedKit.search` therefore places that whole list as the single element
of the `drugs` field, the per-record validation of `SearchResults.drugs`
rejects it, and `search` raises for every query and every adapter outcome. -/
theorem drug_returns_list_and_search_raises (r : AdapterResponses) (qt : ℚ) :
    (medkitSearchPre r).drugsField = [DrugsItem.pyList (openfdaSearchSync r)] ∧
    validateDrugsField (medkitSearchPre r).drugsField = .error () ∧
    medkitSearch r qt = .error () := by
  refine ⟨rfl, rfl, ?_⟩
  simp [medkitSearch, medkitSearchPre, medkitDrug, validateDrugsField, validateDrugsItem]

/-- Claim C1, counterexample: with the pubmed and clinicaltrials calls failing
and openfda succeeding, `search` does not return a `SearchResults` — it raises
a validation error — and the pre-merge metadata lists no failed source in
`offline_providers` and only `openfda` in `sources`, contrary to the claimed
partial-failure isolation. -/
theorem search_partial_failure_counterexample :
    medkitSearch rPubmedDown 0 = .error () ∧
    (medkitSearchPre rPubmedDown).offline_providers = [] ∧
    (medkitSearchPre rPubmedDown).sources = ["openfda"] := by
  decide

/-- Claim C1 (amended): `MedKit.search` raises for every query and every
adapter outcome (the openfda branch always completes because its provider
swallows failures into a list, and the list wrapped into the `drugs` field
fails validation); moreover nothing ever writes `offline_providers`, and
`sources` always holds `openfda` and otherwise only the sources that
succeeded with non-empty data. -/
theorem search_always_raises_never_isolates (r : AdapterResponses) (qt : ℚ) :
    medkitSearch r qt = .error () ∧
    (medkitSearchPre r).offline_providers = [] ∧
    (medkitSearchPre r).sources =
      ["openfda"] ++
        (match r.pubmedHttp with
         | .ok ps => if ps.isEmpty then [] else ["pubmed"]
         | .error _ => []) ++
        (if (clinicaltrialsSearchSync r).isEmpty then [] else ["clinicaltrials"]) := by
  refine ⟨?_, rfl, ?_⟩
  · simp [medkitSearch, medkitSearchPre, medkitDrug, validateDrugsField, validateDrugsItem]
  · cases hpm : r.pubmedHttp with
    | ok ps =>
      have hie := sortPapersByYear_isEmpty ps
      cases hpe : ps.isEmpty <;>
        cases hte : (clinicaltrialsSearchSync r).isEmpty <;>
          simp [medkitSearchPre, medkitPapers, pubmedSearchSync, medkitTrials, hpm,
            hie, hpe, hte]
    | error e =>
      cases hte : (clinicaltrialsSearchSync r).isEmpty <;>
        simp [medkitSearchPre, medkitPapers, pubmedSearchSync, medkitTrials, hpm, hte]

/-- Claim C10, counterexample: with the pubmed provider returning two papers
in ascending year order, the merged papers category comes out re-sorted into
descending year order, not in the source order. -/
theorem merge_keeps_source_order_counterexample :
    (medkitSearchPre rPapersAsc).papersField =
      [paperOf "2" (some 2020), paperOf "1" (some 2000)] ∧
    [paperOf "2" (some 2020), paperOf "1" (some 2000)] ≠
      [paperOf "1" (some 2000), paperOf "2" (some 2020)] := by
  decide

/-- Claim C10 (amended): for fixed adapter responses the merged categories are
a deterministic function of the responses; the trials category keeps the
provider order verbatim, while the papers category is the stable re-sort of
the provider list into descending year order — a permutation that preserves
the provider order within each year class. -/
theorem merge_order_characterization (r : AdapterResponses) (ps : List ResearchPaper)
    (h : r.pubmedHttp = .ok ps) :
    (medkitSearchPre r).trialsField = clinicaltrialsSearchSync r ∧
    (medkitSearchPre r).papersField = sortPapersByYear ps ∧
    ((medkitSearchPre r).papersField).Perm ps ∧
    ((medkitSearchPre r).papersField).Pairwise
      (fun a b => paperYearKey b ≤ paperYearKey a) ∧
    (∀ k : Int, ((medkitSearchPre r).papersField).filter (fun p => paperYearKey p == k) =
      ps.filter (fun p => paperYearKey p == k)) := by
  have hfield : (medkitSearchPre r).papersField = sortPapersByYear ps := by
    simp [medkitSearchPre, medkitPapers, pubmedSearchSync, h]
  refine ⟨rfl, hfield, ?_, ?_, ?_⟩
  · rw [hfield]
    exact stableSort_perm _ ps
  · rw [hfield]
    exact stableSort_sorted paperYearKey ps
  · intro k
    rw [hfield]
    exact stableSort_filter_key paperYearKey ps k

/-- Claim C10, witness: the amended characterization applied to the concrete
ascending-year configuration. -/
theorem merge_order_characterization_witness :
    rPapersAsc.pubmedHttp = .ok [paperOf "1" (some 2000), paperOf "2" (some 2020)] ∧
    ((medkitSearchPre rPapersAsc).papersField).Perm
      [paperOf "1" (some 2000), paperOf "2" (some 2020)] :=
  ⟨rfl, (merge_order_characterization rPapersAsc
    [paperOf "1" (some 2000), paperOf "2" (some 2020)] rfl).2.2.1⟩

/-! ## Theorems: intent router (claim C3) and query cleaner (claim C8) -/

/-- Claim C3: word-boundary-correct classification with deterministic
fallback — "industrial accidents" routes to `search` (the "trial" substring
of "industrial" does not match), "clinical trial for aspirin" routes to
`trials`, and any input on which every intent keyword score is zero routes to
the fallback `search`. -/
theorem route_word_boundary_and_fallback :
    route "industrial accidents" = .search ∧
    route "clinical trial for aspirin" = .trials ∧
    (∀ q : String, routeScore .explain q = 0 → routeScore .trials q = 0 →
      routeScore .papers q = 0 → routeScore .summary q = 0 → route q = .search) := by
  refine ⟨by decide, by decide, ?_⟩
  intro q h1 h2 h3 h4
  simp [route, h1, h2, h3, h4]

/-- Claim C3, witness: the fallback branch of the claim applied to a junk
query with all-zero scores. -/
theorem route_word_boundary_and_fallback_witness :
    routeScore .explain "hello how are you" = 0 ∧
    routeScore .trials "hello how are you" = 0 ∧
    routeScore .papers "hello how are you" = 0 ∧
    routeScore .summary "hello how are you" = 0 ∧
    route "hello how are you" = .search :=
  ⟨by decide, by decide, by decide, by decide,
    route_word_boundary_and_fallback.2.2 "hello how are you"
      (by decide) (by decide) (by decide) (by decide)⟩

set_option maxRecDepth 8000 in
/-- Claim C8: evaluating the cleaner of `ask_engine.py` at the input named by
the spec and by `tests/test_routing.py`.  The output retains "profit" and
drops "what is", but it also retains the phrase "research on", which is in
none of the stop patterns — the claimed (and tested) removal does not
happen. -/
theorem clean_query_retains_research_on :
    extract_search_terms "What is research on profit?" = "research on profit".data ∧
    occursSub "profit".data (extract_search_terms "What is research on profit?") = true ∧
    occursSub "what is".data (extract_search_terms "What is research on profit?") = false ∧
    occursSub "research on".data (extract_search_terms "What is research on profit?") = true :=
  ⟨by decide, by decide, by decide, by decide⟩

/-! ## Theorems: entity correlation (claim C9) -/

theorem dictSet_hasKey (m : List (String × List String)) (k : String) (v : List String) :
    (dictSet m k v).any (fun kv => kv.1 == k) = true := by
  unfold dictSet
  by_cases h : m.any (fun kv => kv.1 == k) = true
  · rw [if_pos h]
    obtain ⟨kv, hmem, hk⟩ := List.any_eq_true.mp h
    refine List.any_eq_true.mpr ⟨(k, v), List.mem_map.mpr ⟨kv, hmem, ?_⟩, by simp⟩
    simp [hk]
  · rw [if_neg h]
    exact List.any_eq_true.mpr ⟨(k, v), by simp, by simp⟩

theorem dictSet_keepsKey (m : List (String × List String)) (k k' : String)
    (v : List String) (h : m.any (fun kv => kv.1 == k') = true) :
    (dictSet m k v).any (fun kv => kv.1 == k') = true := by
  unfold dictSet
  by_cases hk : m.any (fun kv => kv.1 == k) = true
  · rw [if_pos hk]
    obtain ⟨kv, hmem, hkv⟩ := List.any_eq_true.mp h
    apply List.any_eq_true.mpr
    by_cases heq : (kv.1 == k) = true
    · refine ⟨(k, v), List.mem_map.mpr ⟨kv, hmem, by simp [heq]⟩, ?_⟩
      have h1 : kv.1 = k := by simpa using heq
      have h2 : kv.1 = k' := by simpa using hkv
      simp [h1.symm.trans h2]
    · have heq2 : (kv.1 == k) = false := by simpa using heq
      exact ⟨kv, List.mem_map.mpr ⟨kv, hmem, by simp [heq2]⟩, hkv⟩
  · rw [if_neg hk]
    rw [List.any_append]
    simp [h]

theorem anyKey_lookup (m : List (String × List String)) (k : String)
    (h : m.any (fun kv => kv.1 == k) = true) : ∃ v, m.lookup k = some v := by
  induction m with
  | nil => simp at h
  | cons kv rest ih =>
    simp only [List.any_cons, Bool.or_eq_true] at h
    by_cases he : (kv.1 == k) = true
    · have he2 : kv.1 = k := by simpa using he
      refine ⟨kv.2, ?_⟩
      simp [List.lookup, he2]
    · rcases h with h1 | h2
      · exact absurd h1 he
      · have hne : (k == kv.1) = false := by
          have : kv.1 ≠ k := by simpa using he
          simp [this.symm]
        obtain ⟨v, hv⟩ := ih h2
        exact ⟨v, by simp [List.lookup, hne, hv]⟩

theorem correlateFold_keepsKey (ds : List DrugInfo) (trials : List ClinicalTrial)
    (m : List (String × List String)) (k : String)
    (h : m.any (fun kv => kv.1 == k) = true) :
    (ds.foldl (fun m d => dictSet m (lowerStr d.brand_name) (relatedTrialIds d trials)) m).any
      (fun kv => kv.1 == k) = true := by
  induction ds generalizing m with
  | nil => simpa using h
  | cons d rest ih => exact ih _ (dictSet_keepsKey _ _ _ _ h)

theorem correlateFold_hasKey (ds : List DrugInfo) (trials : List ClinicalTrial)
    (m : List (String × List String)) (d : DrugInfo) (hd : d ∈ ds) :
    (ds.foldl (fun m d => dictSet m (lowerStr d.brand_name) (relatedTrialIds d trials)) m).any
      (fun kv => kv.1 == lowerStr d.brand_name) = true := by
  induction ds generalizing m with
  | nil => cases hd
  | cons d0 rest ih =>
    rcases List.mem_cons.mp hd with rfl | hmem
    · exact correlateFold_keepsKey rest trials _ _ (dictSet_hasKey m _ _)
    · exact ih _ hmem

/-- Claim C9, counterexample: a drug with zero matching trials still gets a
mapping entry (with an empty value), and a trial whose title names the drug
but whose intervention list does not is not matched — contrary to the claimed
"no entry at all" behaviour and the claimed scan of title and description. -/
theorem correlate_drops_no_drug_counterexample :
    correlate_entities [aspirinDrug] [titleOnlyTrial] = [("aspirin", [])] ∧
    relatedTrialIds aspirinDrug [titleOnlyTrial] = [] := by
  decide

/-- Claim C9 (amended): `correlate_entities` builds, per drug, the single
case-insensitive word-boundary regex alternating brand and generic name, but
scans only the trial intervention lists (title and description are ignored),
and it produces an entry for every drug — a drug with zero matching trials is
mapped to the empty list rather than omitted. -/
theorem correlate_entry_always_present :
    (∀ (drugs : List DrugInfo) (trials : List ClinicalTrial) (d : DrugInfo), d ∈ drugs →
      ∃ v, (correlate_entities drugs trials).lookup (lowerStr d.brand_name) = some v) ∧
    (∀ (d : DrugInfo) (t1 t2 : ClinicalTrial), t1.interventions = t2.interventions →
      trialMatches d t1 = trialMatches d t2) := by
  constructor
  · intro drugs trials d hd
    exact anyKey_lookup _ _ (correlateFold_hasKey drugs trials [] d hd)
  · intro d t1 t2 h
    simp [trialMatches, h]

/-- Claim C9, witness: the amended statement applied to the concrete drug and
trial records. -/
theorem correlate_entry_always_present_witness :
    aspirinDrug ∈ [aspirinDrug] ∧
    (∃ v, (correlate_entities [aspirinDrug] []).lookup (lowerStr aspirinDrug.brand_name) = some v) ∧
    titleOnlyTrial.interventions = titleOnlyTrial.interventions ∧
    trialMatches aspirinDrug titleOnlyTrial = trialMatches aspirinDrug titleOnlyTrial :=
  ⟨List.mem_singleton.mpr rfl,
   correlate_entry_always_present.1 [aspirinDrug] [] aspirinDrug (List.mem_singleton.mpr rfl),
   rfl,
   correlate_entry_always_present.2 aspirinDrug titleOnlyTrial titleOnlyTrial rfl⟩

/-! ## Theorems: evidence synthesis (claims C4, C5) -/

theorem fdaBonus_nonneg (drugs : List DrugInfo) : 0 ≤ fdaBonus drugs := by
  unfold fdaBonus
  split <;> norm_num

theorem p3Bonus_nonneg (trials : List ClinicalTrial) : 0 ≤ p3Bonus trials := by
  unfold p3Bonus
  split
  · norm_num
  · refine le_min (by positivity) (by norm_num)

theorem p2Bonus_nonneg (trials : List ClinicalTrial) : 0 ≤ p2Bonus trials := by
  unfold p2Bonus
  split
  · norm_num
  · refine le_min (by positivity) (by norm_num)

theorem volumeBonus_nonneg (papers : List ResearchPaper) (trials : List ClinicalTrial) :
    0 ≤ volumeBonus papers trials := by
  unfold volumeBonus
  refine le_min (by positivity) (by norm_num)

theorem recencyBonus_nonneg (y : Int) (papers : List ResearchPaper) :
    0 ≤ recencyBonus y papers := by
  unfold recencyBonus
  refine le_min (by positivity) (by norm_num)

theorem rawScore_nonneg (y : Int) (drugs : List DrugInfo)
    (papers : List ResearchPaper) (trials : List ClinicalTrial) :
    0 ≤ rawScore y drugs papers trials := by
  unfold rawScore
  have h1 := fdaBonus_nonneg drugs
  have h2 := p3Bonus_nonneg trials
  have h3 := p2Bonus_nonneg trials
  have h4 := volumeBonus_nonneg papers trials
  have h5 := recencyBonus_nonneg y papers
  linarith

theorem round2_nonneg {x : ℚ} (h : 0 ≤ x) : 0 ≤ round2 x := by
  unfold round2
  have hr : (0:ℤ) ≤ round (x * 100) := by
    rw [round_eq]
    apply Int.le_floor.mpr
    push_cast
    linarith
  have : (0:ℚ) ≤ ((round (x * 100) : ℤ) : ℚ) := by exact_mod_cast hr
  positivity

theorem round2_le_one {x : ℚ} (h : x ≤ 1) : round2 x ≤ 1 := by
  unfold round2
  have hr : round (x * 100) ≤ 100 := by
    rw [round_eq]
    have hfl : ⌊x * 100 + 1 / 2⌋ < 101 := by
      apply Int.floor_lt.mpr
      push_cast
      linarith
    omega
  rw [div_le_one (by norm_num)]
  exact_mod_cast hr

/-- Claim C5: the evidence score of every synthesized conclusion lies in
`[0, 1]`, however large the inputs, and every additive contribution is
individually capped — in particular volume alone can never exceed its cap. -/
theorem evidence_score_in_unit_interval (y : Int) (q : String) (drugs : List DrugInfo)
    (papers : List ResearchPaper) (trials : List ClinicalTrial) :
    0 ≤ (synthesize y q drugs papers trials).evidence_score ∧
    (synthesize y q drugs papers trials).evidence_score ≤ 1 ∧
    volumeBonus papers trials ≤ 0.25 ∧
    p3Bonus trials ≤ 0.45 ∧
    p2Bonus trials ≤ 0.20 ∧
    recencyBonus y papers ≤ 0.10 ∧
    fdaBonus drugs ≤ 0.15 := by
  have hscore : (synthesize y q drugs papers trials).evidence_score =
      round2 (min (rawScore y drugs papers trials) 1) := rfl
  refine ⟨?_, ?_, min_le_right _ _, ?_, ?_, min_le_right _ _, ?_⟩
  · rw [hscore]
    exact round2_nonneg (le_min (rawScore_nonneg y drugs papers trials) (by norm_num))
  · rw [hscore]
    exact round2_le_one (min_le_right _ _)
  · unfold p3Bonus
    split
    · norm_num
    · exact min_le_right _ _
  · unfold p2Bonus
    split
    · norm_num
    · exact min_le_right _ _
  · unfold fdaBonus
    split <;> norm_num

/-- Claim C4, counterexample: identical inputs, two different wall-clock
years — the recency window moves, so repeated calls across a year change do
not yield the identical evidence score, contradicting the claimed absence of
wall-clock dependence in the score. -/
theorem synthesize_wall_clock_counterexample :
    (synthesize 2026 "metformin" []
      [paperOf "11" (some 2024), paperOf "12" (some 2024)] []).evidence_score = 9/100 ∧
    (synthesize 2030 "metformin" []
      [paperOf "11" (some 2024), paperOf "12" (some 2024)] []).evidence_score = 3/100 ∧
    (synthesize 2026 "metformin" []
      [paperOf "11" (some 2024), paperOf "12" (some 2024)] []).evidence_score ≠
      (synthesize 2030 "metformin" []
        [paperOf "11" (some 2024), paperOf "12" (some 2024)] []).evidence_score := by
  refine ⟨?_, ?_, ?_⟩ <;>
    norm_num [synthesize, round2, rawScore, fdaBonus, p3Bonus, p2Bonus, phase3Trials,
      phase2Trials, volumeBonus, recencyBonus, recentPapers, paperOf, List.filter,
      min_def, round_eq]

/-- Claim C4 (amended): `synthesize` is a deterministic pure function of its
inputs and of the wall-clock year, it uses no randomness, and its only
wall-clock dependence is the count of papers inside the three-year recency
window — two calls whose clock years classify the papers identically return
the identical conclusion (the conclusion object of `intelligence.py` carries
no timestamp field at all). -/
theorem synthesize_deterministic_given_recency (y1 y2 : Int) (q : String)
    (drugs : List DrugInfo) (papers : List ResearchPaper) (trials : List ClinicalTrial)
    (h : (recentPapers y1 papers).length = (recentPapers y2 papers).length) :
    synthesize y1 q drugs papers trials = synthesize y2 q drugs papers trials := by
  simp only [synthesize, rawScore, recencyBonus, synthFindings, h]

/-- Claim C4, witness: the amended determinism applied at two concrete years
whose recency classification of the (empty) paper list coincides. -/
theorem synthesize_deterministic_given_recency_witness :
    (recentPapers 2026 []).length = (recentPapers 2030 []).length ∧
    synthesize 2026 "aspirin" [] [] [] = synthesize 2030 "aspirin" [] [] [] :=
  ⟨rfl, synthesize_deterministic_given_recency 2026 2030 "aspirin" [] [] [] rfl⟩

/-! ## Theorems: rate limiter (claims C6, C7) -/

theorem pruneTimestamps_compose {α : Type} [LinearOrderedAddCommGroup α] (period : α)
    {n1 n2 : α} (h : n1 ≤ n2) (ts : List α) :
    pruneTimestamps period n2 (pruneTimestamps period n1 ts) =
      pruneTimestamps period n2 ts := by
  unfold pruneTimestamps
  rw [List.filter_filter]
  apply List.filter_congr
  intro t _
  by_cases h2 : n2 - t < period
  · have h1 : n1 - t < period := lt_of_le_of_lt (sub_le_sub_right h t) h2
    simp [h1, h2]
  · simp [h2]

theorem wait_admitted_spec {α : Type} [LinearOrderedAddCommGroup α] (calls : Int) (period : α) :
    ∀ (fuel : Nat) (ts : List α) (now a : α) (ts2 : List α),
      rateLimiterWait calls period fuel ts now = .admitted a ts2 →
      now ≤ a ∧ ts2 = pruneTimestamps period a ts ++ [a] ∧
        ((pruneTimestamps period a ts).length : Int) < calls := by
  intro fuel
  induction fuel with
  | zero =>
    intro ts now a ts2 h
    simp [rateLimiterWait] at h
  | succ f ih =>
    intro ts now a ts2 h
    simp only [rateLimiterWait] at h
    by_cases hc : calls ≤ ((pruneTimestamps period now ts).length : Int)
    · rw [if_pos hc] at h
      cases hts : pruneTimestamps period now ts with
      | nil =>
        rw [hts] at h
        simp at h
      | cons t0 rest =>
        rw [hts] at h
        obtain ⟨h1, h2, h3⟩ := ih _ _ _ _ h
        have hwake : now ≤ (if 0 < period - (now - t0) then now + (period - (now - t0)) else now) := by
          by_cases hpos : 0 < period - (now - t0)
          · rw [if_pos hpos]
            exact le_add_of_nonneg_right (le_of_lt hpos)
          · rw [if_neg hpos]
        have hna : now ≤ a := le_trans hwake h1
        have hcomp : pruneTimestamps period a (t0 :: rest) = pruneTimestamps period a ts := by
          rw [← hts]
          exact pruneTimestamps_compose period hna ts
        rw [hcomp] at h2 h3
        exact ⟨hna, h2, h3⟩
    · rw [if_neg hc] at h
      injection h with ha hts2
      subst ha
      subst hts2
      exact ⟨le_refl now, rfl, lt_of_not_le hc⟩

theorem runDelays_invariant {α : Type} [LinearOrderedAddCommGroup α]
    (calls : Int) (period : α) (hp : (0:α) < period) :
    ∀ (ds : List α) (hist : List α) (tprev : α) (as : List α),
      (∀ d ∈ ds, 0 ≤ d) →
      hist.Pairwise (fun a b => a ≤ b) →
      (∀ t ∈ hist, t ≤ tprev) →
      WindowOk calls period hist →
      runDelays calls period ds (pruneTimestamps period tprev hist) tprev = some as →
      (hist ++ as).Pairwise (fun a b => a ≤ b) ∧ WindowOk calls period (hist ++ as) := by
  intro ds
  induction ds with
  | nil =>
    intro hist tprev as _ hsort _ hwin hrun
    simp only [runDelays, Option.some.injEq] at hrun
    subst hrun
    simpa using ⟨hsort, hwin⟩
  | cons d ds ih =>
    intro hist tprev as hds hsort hle hwin hrun
    simp only [runDelays] at hrun
    cases hw : rateLimiterWait calls period
        (waitFuel (pruneTimestamps period tprev hist))
        (pruneTimestamps period tprev hist) (tprev + d) with
    | indexError =>
      rw [hw] at hrun
      cases hrun
    | fuelExhausted =>
      rw [hw] at hrun
      cases hrun
    | admitted a ts2 =>
      rw [hw] at hrun
      have hrunm : Option.map (fun as => a :: as) (runDelays calls period ds ts2 a) =
          some as := hrun
      obtain ⟨as2, hrun2, hinj⟩ := Option.map_eq_some'.mp hrunm
      have hasdef : as = a :: as2 := hinj.symm
      subst hasdef
      obtain ⟨h1, h2, h3⟩ := wait_admitted_spec calls period _ _ _ _ _ hw
      have hd0 : 0 ≤ d := hds d (List.mem_cons_self d ds)
      have htpa : tprev ≤ a := le_trans (le_add_of_nonneg_right hd0) h1
      have hcomp : pruneTimestamps period a (pruneTimestamps period tprev hist) =
          pruneTimestamps period a hist := pruneTimestamps_compose period htpa hist
      rw [hcomp] at h2 h3
      have hsort2 : (hist ++ [a]).Pairwise (fun a b => a ≤ b) := by
        rw [List.pairwise_append]
        refine ⟨hsort, List.pairwise_singleton _ _, ?_⟩
        intro t ht b hb
        rw [List.mem_singleton] at hb
        subst hb
        exact le_trans (hle t ht) htpa
      have hle2 : ∀ t ∈ hist ++ [a], t ≤ a := by
        intro t ht
        rcases List.mem_append.mp ht with hm | hm
        · exact le_trans (hle t hm) htpa
        · rw [List.mem_singleton] at hm
          exact le_of_eq hm
      have hwin2 : WindowOk calls period (hist ++ [a]) := by
        intro k hk
        by_cases hkl : k < hist.length
        · have hget : (hist ++ [a]).get ⟨k, hk⟩ = hist.get ⟨k, hkl⟩ :=
            List.get_append k hkl
          have htk : (hist ++ [a]).take k = hist.take k :=
            List.take_append_of_le_length (le_of_lt hkl)
          rw [hget, htk]
          exact hwin k hkl
        · have hk2 : k = hist.length := by
            rw [List.length_append, List.length_singleton] at hk
            omega
          subst hk2
          have hget : (hist ++ [a]).get ⟨hist.length, hk⟩ = a := by
            rw [List.get_append_right hist [a] (le_refl hist.length)]
            · simp
            · simp
          have htk : (hist ++ [a]).take hist.length = hist := List.take_left hist [a]
          rw [hget, htk]
          exact h3
      have hts2 : ts2 = pruneTimestamps period a (hist ++ [a]) := by
        rw [h2]
        unfold pruneTimestamps
        rw [List.filter_append]
        congr 1
        simp [hp]
      rw [hts2] at hrun2
      have hmain := ih (hist ++ [a]) a as2
        (fun x hx => hds x (List.mem_cons_of_mem d hx)) hsort2 hle2 hwin2 hrun2
      rw [List.append_assoc] at hmain
      simpa using hmain

theorem windowOk_spacing {α : Type} [LinearOrderedAddCommGroup α]
    {calls : Int} {period : α} {as : List α}
    (hcalls : 1 ≤ calls) (hsort : as.Pairwise (fun a b => a ≤ b))
    (hwin : WindowOk calls period as) :
    ∀ i : Nat, i + calls.toNat < as.length →
      as.getD i 0 + period ≤ as.getD (i + calls.toNat) 0 := by
  intro i hi
  have hjlen : i + calls.toNat < as.length := hi
  have hilen : i < as.length := by omega
  rw [List.getD_eq_getElem as 0 hjlen, List.getD_eq_getElem as 0 hilen]
  have hcount := hwin (i + calls.toNat) hjlen
  by_contra hcon
  push_neg at hcon
  have hget : as.get ⟨i + calls.toNat, hjlen⟩ = as[i + calls.toNat] := rfl
  have hall : ∀ t ∈ (as.take (i + calls.toNat)).drop i,
      (fun t => decide (as.get ⟨i + calls.toNat, hjlen⟩ - t < period)) t = true := by
    intro t ht
    obtain ⟨m, hm, hmt⟩ := List.mem_iff_getElem.mp ht
    have hmlen : i + m < as.length := by
      have := hm
      rw [List.length_drop, List.length_take] at this
      omega
    have htval : t = as[i + m] := by
      rw [← hmt, List.getElem_drop, List.getElem_take]
    have hmono : as[i] ≤ as[i + m] := by
      rcases Nat.eq_zero_or_pos m with rfl | hmpos
      · simp
      · have := List.pairwise_iff_get.mp hsort ⟨i, hilen⟩ ⟨i + m, hmlen⟩
          (by simp; omega)
        simpa using this
    rw [htval, hget]
    simp only [decide_eq_true_eq]
    have : as[i + calls.toNat] < as[i] + period := hcon
    have hstep : as[i + calls.toNat] < as[i + m] + period :=
      lt_of_lt_of_le this (add_le_add_right hmono period)
    exact sub_lt_iff_lt_add.mpr (lt_of_lt_of_le hstep (le_of_eq (add_comm _ _)))
  have hseg : ((as.take (i + calls.toNat)).drop i).length = calls.toNat := by
    rw [List.length_drop, List.length_take]
    omega
  have hsplit : as.take (i + calls.toNat) =
      as.take i ++ (as.take (i + calls.toNat)).drop i := by
    have h1 : (as.take (i + calls.toNat)).take i = as.take i := by
      rw [List.take_take]
      congr 1
      omega
    conv_lhs => rw [← List.take_append_drop i (as.take (i + calls.toNat))]
    rw [h1]
  have hlb : calls.toNat ≤
      ((as.take (i + calls.toNat)).filter
        (fun t => decide (as.get ⟨i + calls.toNat, hjlen⟩ - t < period))).length := by
    conv_rhs => rw [hsplit]
    rw [List.filter_append, List.length_append]
    rw [List.filter_eq_self.mpr hall, hseg]
    omega
  have hc0 : ((calls.toNat : Int)) = calls := Int.toNat_of_nonneg (by omega)
  omega

/-- Claim C6: admission accounting of the rate limiter.  `wait` prunes stale
timestamps, re-checks after every sleep, and records the admission instant;
along every sequential run the admission instants are spaced so that in any
rolling window of length `period` at most `calls` admissions occur: the
admission `calls` positions later is at least `period` after the current
one. -/
theorem rateLimiter_rolling_window_bound {α : Type} [LinearOrderedAddCommGroup α]
    (calls : Int) (period : α) (ds : List α) (t0 : α) (as : List α)
    (hcalls : 1 ≤ calls) (hp : (0:α) < period) (hds : ∀ d ∈ ds, 0 ≤ d)
    (hrun : runDelays calls period ds [] t0 = some as) :
    ∀ i : Nat, i + calls.toNat < as.length →
      as.getD i 0 + period ≤ as.getD (i + calls.toNat) 0 := by
  have hrun2 : runDelays calls period ds (pruneTimestamps period t0 []) t0 = some as := hrun
  have hmain := runDelays_invariant calls period hp ds [] t0 as hds
    (List.Pairwise.nil) (fun t ht => absurd ht (List.not_mem_nil t))
    (fun k hk => absurd hk (by simp)) hrun2
  rw [List.nil_append] at hmain
  exact windowOk_spacing hcalls hmain.1 hmain.2

/-- Claim C6, witness: with `calls = 2`, `period = 1` second (integer clock),
three sequential acquires starting at instant 0 are admitted at 0, 0 and 1 —
the third no earlier than one period after the first. -/
theorem rateLimiter_rolling_window_bound_witness :
    (1 : Int) ≤ 2 ∧ ((0:ℤ) < 1) ∧ (∀ d ∈ ([0, 0, 0] : List ℤ), 0 ≤ d) ∧
    runDelays 2 (1:ℤ) [0, 0, 0] [] 0 = some [0, 0, 1] ∧
    ([0, 0, 1] : List ℤ).getD 0 0 + 1 ≤ ([0, 0, 1] : List ℤ).getD (0 + (2:Int).toNat) 0 :=
  ⟨by decide, by decide, by decide, by decide,
    rateLimiter_rolling_window_bound 2 (1:ℤ) [0, 0, 0] 0 [0, 0, 1]
      (by decide) (by decide) (by decide) (by decide) 0 (by decide)⟩

/-- Claim C7, counterexample: constructing a rate limiter with `calls = 0`
succeeds silently — the initializer performs no validation and raises no
configuration error. -/
theorem rateLimiter_init_no_validation_counterexample :
    rateLimiterInit (0 : Int) ((1 : ℚ)) =
      .ok { calls := 0, period := 1, timestamps := [] } := rfl

/-- Claim C7 (amended): construction always succeeds for every `calls` value
(the initializer merely stores its arguments); a limiter with `calls ≤ 0`
still never admits a call, but by raising an IndexError from `timestamps[0]`
on the empty pruned list at the first `wait`, not by failing construction. -/
theorem rateLimiter_nonpositive_calls_never_admits {α : Type}
    [LinearOrderedAddCommGroup α] (calls : Int) (period now : α) (fuel : Nat)
    (h : calls ≤ 0) :
    rateLimiterInit calls period =
      .ok { calls := calls, period := period, timestamps := [] } ∧
    rateLimiterWait calls period (fuel + 1) [] now = .indexError := by
  refine ⟨rfl, ?_⟩
  simp only [rateLimiterWait, pruneTimestamps, List.filter_nil, List.length_nil,
    Nat.cast_zero, if_pos h]

/-- Claim C7, witness: the amended statement at `calls = 0`, `period = 1.0`. -/
theorem rateLimiter_nonpositive_calls_never_admits_witness :
    (0 : Int) ≤ 0 ∧
    rateLimiterInit (0 : Int) (1 : ℚ) =
      .ok { calls := 0, period := 1, timestamps := [] } ∧
    rateLimiterWait (0 : Int) (1 : ℚ) 1 [] 0 = .indexError :=
  ⟨le_refl 0,
    (rateLimiter_nonpositive_calls_never_admits (α := ℚ) 0 1 0 0 (le_refl 0)).1,
    (rateLimiter_nonpositive_calls_never_admits (α := ℚ) 0 1 0 0 (le_refl 0)).2⟩

end Medkit
